import Mathlib

/-!
Verification of the ingress reconciler of `net-gateway-api`.

This file gives a shallow embedding of the reconciliation and diffing engine:

* `pkg/reconciler/ingress/reconciler.go` (the `ingress` package file):
  `reconcileHTTPRoute`, `reconcileRedirectHTTPRoute`, `reconcileTLS`,
  `reconcileGatewayListeners`, `clearGatewayListeners`;
* `pkg/reconciler/ingress/resources/httproute.go`:
  `MakeHTTPRoute`, `MakeRedirectHTTPRoute`, `makeHTTPRouteSpec`,
  `makeHTTPRouteRule`, `makeRedirectHTTPRouteSpec`, `makeRedirectHTTPRouteRule`,
  `matchesFromRulePath`, and the `HTTPHeaderList` / `HTTPHeaderMatchList`
  descending sorts.

Go maps (`map[string]string`) are embedded as association lists together with
lookup-based equality (`mapEqB`), matching `equality.Semantic.DeepEqual`'s
order-insensitive map comparison.  Map iteration (`for k, v := range m`) is
embedded by taking an enumeration of the map as a list; properties quantify
over all enumerations where iteration order matters.  Store interaction
(listers, create, update) is embedded by passing the cached read result in as
a `GetResult` and recording the issued create/update calls in the output.
-/

/-! ### Ingress intent (knative `netv1alpha1.Ingress`), restricted to the
fields read by the embedded functions. -/

/-- One TLS block of the ingress spec (`netv1alpha1.IngressTLS`):
`Hosts`, `SecretName`, `SecretNamespace`. -/
structure IngressTLS where
  hosts : List String
  secretName : String
  secretNamespace : String
deriving DecidableEq

/-- The ingress object fields read by the reconciler: identity
(`Name`/`Namespace`/`UID`), metadata maps, and `Spec.TLS`.  A Go `nil` TLS
slice and an empty TLS slice are both embedded as `[]` (the source only ever
tests `== nil || len == 0`). -/
structure Ingress where
  name : String
  ns : String
  uid : String
  labels : List (String × String)
  annotations : List (String × String)
  tls : List IngressTLS
deriving DecidableEq

/-- `const listenerPrefix = "kni-"`. -/
def listenerPrefixStr : String := "kni-"

/-- The listener name derived for an ingress:
`listenerPrefix + ing.GetUID()` (used both in `reconcileTLS` and in
`clearGatewayListeners`). -/
def listenerName (ing : Ingress) : String := listenerPrefixStr ++ ing.uid

/-! ### Gateway listeners (`gatewayapi.Listener`), with the fields populated
by `reconcileTLS`.  `equality.Semantic.DeepEqual` on listeners is structural
equality of these values, embedded as decidable equality. -/

/-- A listener entry of the shared gateway's `Spec.Listeners` sequence.
Nested Go structs (`GatewayTLSConfig`, `SecretObjectReference`,
`AllowedRoutes`) are flattened into the fields `reconcileTLS` populates. -/
structure Listener where
  name : String
  hostname : String
  port : Nat
  protocol : String
  tlsMode : String
  certRefGroup : String
  certRefKind : String
  certRefName : String
  certRefNamespace : String
  allowedRoutesFrom : String
  allowedRoutesNamespace : String
deriving DecidableEq, Inhabited

/-- The listener-construction loop at the end of `reconcileTLS`: one listener
per TLS host, all sharing the single name `listenerPrefix + ing.GetUID()`,
port 443, HTTPS, TLS mode Terminate, certificate reference to the TLS secret,
and allowed routes restricted to the ingress namespace by selector. -/
def reconcileTLSListeners (tls : IngressTLS) (ing : Ingress) : List Listener :=
  tls.hosts.map fun h =>
    { name := listenerName ing
      hostname := h
      port := 443
      protocol := "HTTPS"
      tlsMode := "Terminate"
      certRefGroup := ""
      certRefKind := "Secret"
      certRefName := tls.secretName
      certRefNamespace := tls.secretNamespace
      allowedRoutesFrom := "Selector"
      allowedRoutesNamespace := ing.ns }

/-! ### The listener map (`lmap`) of `reconcileGatewayListeners`.

The Go code builds `lmap := map[string]*Listener{}` from the desired
listeners (later inserts for the same name overwrite the value), looks names
up, and deletes handled names.  The map is embedded as an association list of
listeners with unique names. -/

/-- `lmap[string(l.Name)] = l`: insert a listener, overwriting the value of an
existing entry with the same name. -/
def lmapInsert (m : List Listener) (l : Listener) : List Listener :=
  if m.any fun x => x.name = l.name then
    m.map fun x => if x.name = l.name then l else x
  else
    m ++ [l]

/-- `desired, ok := lmap[string(l.Name)]`. -/
def lmapFind (m : List Listener) (nm : String) : Option Listener :=
  m.find? fun x => x.name = nm

/-- `delete(lmap, string(l.Name))`. -/
def lmapErase (m : List Listener) (nm : String) : List Listener :=
  m.filter fun x => !(x.name = nm : Bool)

/-- The `lmap` built by the first loop of `reconcileGatewayListeners`. -/
def buildLmap (listeners : List Listener) : List Listener :=
  listeners.foldl lmapInsert []

/-- The in-place scan of `reconcileGatewayListeners` over the existing
`gw.Spec.Listeners`: entries whose name is not in `lmap` are kept verbatim
(foreign ownership); a matching entry is removed from `lmap` and kept if
semantically equal, else replaced in place and the result marked dirty.
Returns the scanned sequence, the remaining `lmap`, and the dirty flag. -/
def scanListeners : List Listener → List Listener → List Listener × List Listener × Bool
  | [], m => ([], m, false)
  | l :: rest, m =>
    match lmapFind m l.name with
    | none =>
      let r := scanListeners rest m
      (l :: r.1, r.2.1, r.2.2)
    | some desired =>
      let r := scanListeners rest (lmapErase m l.name)
      if l = desired then (l :: r.1, r.2.1, r.2.2)
      else (desired :: r.1, r.2.1, true)

/-- The full merge of `reconcileGatewayListeners` on a fetched gateway's
listener sequence: scan in place, then append every listener remaining in
`lmap`.  Returns the merged sequence and the `updated` flag (dirty when any
entry was replaced or appended). -/
def upsertListeners (existing desired : List Listener) : List Listener × Bool :=
  let lmap := buildLmap desired
  let r := scanListeners existing lmap
  (r.1 ++ r.2.1, r.2.2 || !r.2.1.isEmpty)

/-! ### Store-level wrappers.  A cached read is passed in as a `GetResult`;
issued writes are recorded in the result. -/

/-- Outcome of a lister `Get`: absent (`IsNotFound`), failed with another
error, or found. -/
inductive GetResult (α : Type) where
  | notFound
  | errored
  | found (a : α)
deriving DecidableEq

/-- The shared gateway resource, restricted to the fields the reconciler
touches. -/
structure Gateway where
  ns : String
  name : String
  listeners : List Listener
deriving DecidableEq

/-- Errors surfaced by the gateway listener operations. -/
inductive GwErr where
  | gatewayMissing
  | getFailed
  | updateFailed
deriving DecidableEq

/-- Result of a gateway listener operation: the error (if any) and the update
calls issued against the store. -/
structure GwResult where
  error : Option GwErr
  updates : List Gateway
deriving DecidableEq

/-- `reconcileGatewayListeners`: fetch the gateway (absent gateways are a hard
`gatewayMissing` error), merge the desired listeners into its sequence with
`upsertListeners`, and issue an update only when the merge marked the resource
dirty.  `updateFails` injects a store failure on the update call. -/
def reconcileGatewayListeners (lookup : GetResult Gateway)
    (listeners : List Listener) (updateFails : Bool) : GwResult :=
  match lookup with
  | .notFound => ⟨some .gatewayMissing, []⟩
  | .errored => ⟨some .getFailed, []⟩
  | .found gw =>
    let r := upsertListeners gw.listeners listeners
    if r.2 then
      ⟨if updateFails then some .updateFailed else none, [{ gw with listeners := r.1 }]⟩
    else
      ⟨none, []⟩

/-- `update.Spec.Listeners[i] = update.Spec.Listeners[len-1];
update.Spec.Listeners = update.Spec.Listeners[:len-1]`: swap-remove of the
entry at index `i` in `clearGatewayListeners`. -/
def removeSwapAt (ls : List Listener) (i : Nat) : List Listener :=
  (ls.set i (ls.getD (ls.length - 1) default)).dropLast

/-- The backward scan of `clearGatewayListeners`: the counter starts at the
initial sequence length and marches down; an entry whose name equals the
derived listener name is swap-removed.  `clearLoop nm (i+1) ls` performs the
iteration at index `i` on the current sequence `ls` and recurses. -/
def clearLoop (nm : String) : Nat → List Listener → List Listener
  | 0, ls => ls
  | i + 1, ls =>
    if (ls.getD i default).name = nm then clearLoop nm i (removeSwapAt ls i)
    else clearLoop nm i ls

/-- The full listener removal of `clearGatewayListeners` on a fetched
gateway's sequence. -/
def clearListenersList (nm : String) (ls : List Listener) : List Listener :=
  clearLoop nm ls.length ls

/-- `clearGatewayListeners`: an absent gateway is already clean (no-op, no
error); otherwise remove every listener named `listenerPrefix + UID` by
backward swap-remove and write the gateway back only when the sequence length
changed. -/
def clearGatewayListeners (lookup : GetResult Gateway) (ing : Ingress)
    (updateFails : Bool) : GwResult :=
  match lookup with
  | .notFound => ⟨none, []⟩
  | .errored => ⟨some .getFailed, []⟩
  | .found gw =>
    let cleared := clearListenersList (listenerName ing) gw.listeners
    if cleared.length ≠ gw.listeners.length then
      ⟨if updateFails then some .updateFailed else none, [{ gw with listeners := cleared }]⟩
    else
      ⟨none, []⟩

/-! ### Go string-map helpers.

`equality.Semantic.DeepEqual` compares Go maps order-insensitively; the
embedding compares association lists by lookup. -/

/-- `m[k]` on a Go string map. -/
def mapLookup (m : List (String × String)) (k : String) : Option String :=
  (m.find? fun p => p.1 = k).map Prod.snd

/-- Order-insensitive map equality: the two maps agree on every key of
either (`DeepEqual` on `map[string]string`). -/
def mapEqB (a b : List (String × String)) : Bool :=
  (a ++ b).all fun p => decide (mapLookup a p.1 = mapLookup b p.1)

/-- `kmap.Union` (external `knative.dev/pkg/kmap` dependency): merge maps,
entries of the later map winning on key collisions. -/
def kmapUnion (a b : List (String × String)) : List (String × String) :=
  (a.filter fun kv => (mapLookup b kv.1).isNone) ++ b

/-- `kmap.Filter` (external `knative.dev/pkg/kmap` dependency): copy the map,
removing every key on which the predicate returns true. -/
def kmapFilter (m : List (String × String)) (pred : String → Bool) :
    List (String × String) :=
  m.filter fun kv => !pred kv.1

/-- `networking.VisibilityLabelKey`. -/
def visibilityLabelKey : String := "networking.knative.dev/visibility"

/-- `corev1.LastAppliedConfigAnnotation`, the key stripped from the desired
route's annotations. -/
def lastAppliedConfigKey : String := "kubectl.kubernetes.io/last-applied-configuration"

/-- `const redirectHTTPRoutePostfix = "-redirect"`. -/
def redirectRouteSuffix : String := "-redirect"

/-- Modelled from the spec: `resources.LongestHost` — its defining file is not
among the provided sources; the spec states the routing-rule name is the
longest hostname among a rule's hosts.  Ties keep the earliest host.  No claim
depends on its exact value. -/
def LongestHost (hosts : List String) : String :=
  hosts.foldl (fun acc h => if acc.length < h.length then h else acc) ""

/-! ### Gateway API value types (`sigs.k8s.io/gateway-api`), with the fields
the builders populate.  Typed string aliases and typed pointers are embedded
as plain strings and values; `nil` optional fields as `Option`. -/

/-- `gatewayapi.ParentReference`. -/
structure ParentReference where
  group : String
  kind : String
  ns : String
  name : String
  sectionName : Option String
deriving DecidableEq

/-- `gatewayapi.HTTPHeader`. -/
structure HTTPHeader where
  name : String
  value : String
deriving DecidableEq

/-- `gatewayapi.HTTPPathMatch` (`Type`, `Value`). -/
structure HTTPPathMatch where
  type : String
  value : String
deriving DecidableEq

/-- `gatewayapi.HTTPHeaderMatch` (`Type`, `Name`, `Value`). -/
structure HTTPHeaderMatch where
  type : String
  name : String
  value : String
deriving DecidableEq

/-- `gatewayapi.HTTPRouteMatch` (`Path`, `Headers`). -/
structure HTTPRouteMatch where
  path : HTTPPathMatch
  headers : List HTTPHeaderMatch
deriving DecidableEq

/-- `gatewayapi.HTTPRequestRedirectFilter` (`Scheme`, `Port`, `StatusCode`). -/
structure HTTPRequestRedirectFilter where
  scheme : String
  port : Nat
  statusCode : Nat
deriving DecidableEq

/-- `gatewayapi.HTTPRouteFilter`: the filter type tag plus the one payload the
builders use for that tag (`RequestHeaderModifier.Set` as the header list). -/
structure HTTPRouteFilter where
  type : String
  requestHeaderModifier : Option (List HTTPHeader)
  requestRedirect : Option HTTPRequestRedirectFilter
deriving DecidableEq

/-- `gatewayapi.HTTPBackendRef`: the nested `BackendRef` /
`BackendObjectReference` fields flattened, plus per-backend filters. -/
structure HTTPBackendRef where
  group : String
  kind : String
  port : Nat
  name : String
  weight : Int
  filters : List HTTPRouteFilter
deriving DecidableEq

/-- `gatewayapi.HTTPRouteRule`. -/
structure HTTPRouteRule where
  backendRefs : List HTTPBackendRef
  filters : List HTTPRouteFilter
  matchList : List HTTPRouteMatch
deriving DecidableEq

/-- `gatewayapi.HTTPRouteSpec` (`Hostnames`, `Rules`,
`CommonRouteSpec.ParentRefs`). -/
structure HTTPRouteSpec where
  hostnames : List String
  rules : List HTTPRouteRule
  parentRefs : List ParentReference
deriving DecidableEq

/-- `gatewayapi.HTTPRoute`: object metadata (name, namespace, maps, the
controller owner reference as the owning UID, the server-managed resource
version) and the spec. -/
structure HTTPRoute where
  name : String
  ns : String
  labels : List (String × String)
  annotations : List (String × String)
  ownerUid : Option String
  resourceVersion : Nat
  spec : HTTPRouteSpec
deriving DecidableEq

/-! ### Ingress rule input (`netv1alpha1.IngressRule`), with the fields the
builders read. -/

/-- `netv1alpha1.IngressVisibility`. -/
inductive IngressVisibility where
  | externalIP
  | clusterLocal
deriving DecidableEq

/-- `netv1alpha1.HeaderMatch` (`Exact`). -/
structure HeaderMatchValue where
  exact : String
deriving DecidableEq

/-- `netv1alpha1.IngressBackendSplit`: backend service name/port, traffic
percent, per-split append headers (map embedded as an enumeration; the
builder iterates it without a nil test, so `nil` is `[]`). -/
structure IngressBackendSplit where
  serviceName : String
  servicePort : Nat
  percent : Nat
  appendHeaders : List (String × String)
deriving DecidableEq

/-- `netv1alpha1.HTTPIngressPath`.  `AppendHeaders` is behind an explicit
`!= nil` test in the builder, so it is an `Option`; `Headers` is iterated
without a nil test. -/
structure HTTPIngressPath where
  path : String
  headers : List (String × HeaderMatchValue)
  appendHeaders : Option (List (String × String))
  splits : List IngressBackendSplit
deriving DecidableEq

/-- `netv1alpha1.HTTPIngressRuleValue`. -/
structure HTTPIngressRuleValue where
  paths : List HTTPIngressPath
deriving DecidableEq

/-- `netv1alpha1.IngressRule` (`Hosts`, `Visibility`, `HTTP`). -/
structure IngressRule where
  hosts : List String
  visibility : IngressVisibility
  http : HTTPIngressRuleValue
deriving DecidableEq

/-! ### The descending header sorts of `httproute.go`.

`sort.Sort(HTTPHeaderList(hs))` sorts with `Less i j = hs[i].Name > hs[j].Name`
and is not stable; its output is some permutation of `hs` that is descending
by name.  The embedding uses `mergeSort` with the complement relation
`b.name ≤ a.name`; on every input reachable in the source (header lists built
from Go maps, whose names are pairwise distinct) the descending permutation is
unique, so the embedding agrees with every correct implementation of
`sort.Sort` there — that uniqueness is exactly what the determinism claim
proves. -/

/-- `sort.Sort(HTTPHeaderList(hs))`. -/
def sortHeaders (hs : List HTTPHeader) : List HTTPHeader :=
  hs.mergeSort fun a b => decide (b.name ≤ a.name)

/-- `sort.Sort(HTTPHeaderMatchList(hs))`. -/
def sortHeaderMatches (hs : List HTTPHeaderMatch) : List HTTPHeaderMatch :=
  hs.mergeSort fun a b => decide (b.name ≤ a.name)

/-- The header-collection loops of `makeHTTPRouteRule`: one `HTTPHeader` per
map entry, in enumeration order. -/
def toHTTPHeaders (m : List (String × String)) : List HTTPHeader :=
  m.map fun kv => { name := kv.1, value := kv.2 }

/-- `matchesFromRulePath`: a single match with path-prefix semantics
(default prefix `/`) and the exact header matches sorted descending by
name. -/
def matchesFromRulePath (path : HTTPIngressPath) : List HTTPRouteMatch :=
  let pathPfx := if path.path ≠ "" then path.path else "/"
  let headerMatchList := sortHeaderMatches (path.headers.map fun kv =>
    { type := "Exact", name := kv.1, value := kv.2.exact })
  [{ path := { type := "PathPrefix", value := pathPfx }, headers := headerMatchList }]

/-- `makeHTTPRouteRule`: per path, an optional request-header-modifier
pre-filter from `AppendHeaders` (sorted), one backend reference per split
(weight = split percent) each carrying its own sorted header filter, and the
matches from the rule path. -/
def makeHTTPRouteRule (rule : IngressRule) : List HTTPRouteRule :=
  rule.http.paths.map fun path =>
    let preFilters : List HTTPRouteFilter :=
      match path.appendHeaders with
      | none => []
      | some m =>
        [{ type := "RequestHeaderModifier"
           requestHeaderModifier := some (sortHeaders (toHTTPHeaders m))
           requestRedirect := none }]
    let backendRefs : List HTTPBackendRef := path.splits.map fun split =>
      { group := ""
        kind := "Service"
        port := split.servicePort
        name := split.serviceName
        weight := (split.percent : Int)
        filters := [{ type := "RequestHeaderModifier"
                      requestHeaderModifier :=
                        some (sortHeaders (toHTTPHeaders split.appendHeaders))
                      requestRedirect := none }] }
    { backendRefs := backendRefs, filters := preFilters,
      matchList := matchesFromRulePath path }

/-- `makeHTTPRouteSpec`. -/
def makeHTTPRouteSpec (rule : IngressRule) (gatewayRef : ParentReference) :
    HTTPRouteSpec :=
  { hostnames := rule.hosts
    rules := makeHTTPRouteRule rule
    parentRefs := [gatewayRef] }

/-- Errors surfaced by the HTTPRoute reconcilers. -/
inductive RouteErr where
  | noTLS
  | getFailed
  | createFailed
  | updateFailed
deriving DecidableEq

/-- `MakeHTTPRoute`: the desired routing-rule resource and a literal `nil`
error. -/
def MakeHTTPRoute (ing : Ingress) (rule : IngressRule)
    (gatewayRef : ParentReference) : HTTPRoute × Option RouteErr :=
  let visibility := if rule.visibility = .clusterLocal then "cluster-local" else ""
  ({ name := LongestHost rule.hosts
     ns := ing.ns
     labels := kmapUnion ing.labels [(visibilityLabelKey, visibility)]
     annotations := kmapFilter ing.annotations fun key => decide (key = lastAppliedConfigKey)
     ownerUid := some ing.uid
     resourceVersion := 0
     spec := makeHTTPRouteSpec rule gatewayRef }, none)

/-- `makeRedirectHTTPRouteRule`: per path, a single https/443/301 redirect
filter, no backends, and the matches from the rule path. -/
def makeRedirectHTTPRouteRule (rule : IngressRule) : List HTTPRouteRule :=
  rule.http.paths.map fun path =>
    { backendRefs := []
      filters := [{ type := "RequestRedirect"
                    requestHeaderModifier := none
                    requestRedirect :=
                      some { scheme := "https", port := 443, statusCode := 301 } }]
      matchList := matchesFromRulePath path }

/-- `makeRedirectHTTPRouteSpec`. -/
def makeRedirectHTTPRouteSpec (rule : IngressRule) (gatewayRef : ParentReference) :
    HTTPRouteSpec :=
  { hostnames := rule.hosts
    rules := makeRedirectHTTPRouteRule rule
    parentRefs := [gatewayRef] }

/-- `MakeRedirectHTTPRoute`: the desired redirect route (name suffixed) and a
literal `nil` error. -/
def MakeRedirectHTTPRoute (ing : Ingress) (rule : IngressRule)
    (gatewayRef : ParentReference) : HTTPRoute × Option RouteErr :=
  let visibility := if rule.visibility = .clusterLocal then "cluster-local" else ""
  ({ name := LongestHost rule.hosts ++ redirectRouteSuffix
     ns := ing.ns
     labels := kmapUnion ing.labels [(visibilityLabelKey, visibility)]
     annotations := kmapFilter ing.annotations fun key => decide (key = lastAppliedConfigKey)
     ownerUid := some ing.uid
     resourceVersion := 0
     spec := makeRedirectHTTPRouteSpec rule gatewayRef }, none)

/-! ### Convergence engine for the HTTPRoute kind (`reconcileHTTPRoute`). -/

/-- The `(body, error)` results of the converge steps are embedded as
`Except`; decidable equality makes concrete runs checkable by `decide`. -/
instance {ε α : Type} [DecidableEq ε] [DecidableEq α] :
    DecidableEq (Except ε α) := fun a b =>
  match a, b with
  | .error e, .error f => decidable_of_iff (e = f) (by simp)
  | .ok x, .ok y => decidable_of_iff (x = y) (by simp)
  | .error _, .ok _ => .isFalse (by simp)
  | .ok _, .error _ => .isFalse (by simp)

/-- Result of a converge step: the returned body or error, and the create and
update calls issued against the store. -/
structure RouteStepResult where
  result : Except RouteErr HTTPRoute
  creates : List HTTPRoute
  updates : List HTTPRoute
deriving DecidableEq

/-- The semantic-equality test of `reconcileHTTPRoute`:
`DeepEqual(Spec) ∧ DeepEqual(Annotations) ∧ DeepEqual(Labels)`
(the source negates it to decide whether to update). -/
def routeSemEq (observed desired : HTTPRoute) : Bool :=
  decide (observed.spec = desired.spec) &&
  mapEqB observed.annotations desired.annotations &&
  mapEqB observed.labels desired.labels

/-- `reconcileHTTPRoute`: cached read passed in as `lookup`; not-found creates
the desired body verbatim; a read error propagates; found-and-equal returns
the observed body with no write; found-and-different deep-copies the observed
body, overlays desired spec/annotations/labels, and updates.  `createFails` /
`updateFails` inject store failures on the respective calls. -/
def reconcileHTTPRoute (lookup : GetResult HTTPRoute) (desired : HTTPRoute)
    (createFails updateFails : Bool) : RouteStepResult :=
  match lookup with
  | .notFound =>
    if createFails then ⟨.error .createFailed, [desired], []⟩
    else ⟨.ok desired, [desired], []⟩
  | .errored => ⟨.error .getFailed, [], []⟩
  | .found httpRoute =>
    if routeSemEq httpRoute desired then ⟨.ok httpRoute, [], []⟩
    else
      let origin := { httpRoute with
        spec := desired.spec
        annotations := desired.annotations
        labels := desired.labels }
      if updateFails then ⟨.error .updateFailed, [], [origin]⟩
      else ⟨.ok origin, [], [origin]⟩

/-- Number of writes (creates plus updates) issued by a converge step. -/
def routeWrites (r : RouteStepResult) : Nat :=
  r.creates.length + r.updates.length

/-- A cached read backed by a single-object store: absent is not-found. -/
def getOf {α : Type} : Option α → GetResult α
  | none => .notFound
  | some a => .found a

/-- One converge pass against a single-object store with a healthy store
(reads from the store, writes land in it): returns the step result and the
post-state of the store. -/
def convergeRoute (store : Option HTTPRoute) (desired : HTTPRoute) :
    RouteStepResult × Option HTTPRoute :=
  let r := reconcileHTTPRoute (getOf store) desired false false
  (r, match r.result with
      | .ok rt => some rt
      | .error _ => store)

/-- The per-visibility gateway configuration read by
`reconcileRedirectHTTPRoute` (`config.Gateway.Gateways[rule.Visibility]`). -/
structure GatewayConfig where
  gatewayNs : String
  gatewayName : String
  httpListenerName : String
deriving DecidableEq

/-- The parent reference built by `reconcileRedirectHTTPRoute`: the
visibility-scoped gateway, bound to the plain-HTTP listener section. -/
def redirectGatewayRef (cfg : GatewayConfig) : ParentReference :=
  { group := "gateway.networking.k8s.io"
    kind := "Gateway"
    ns := cfg.gatewayNs
    name := cfg.gatewayName
    sectionName := some cfg.httpListenerName }

/-- `reconcileRedirectHTTPRoute`: a missing or empty `spec.tls` is a hard
precondition error before anything is built or written; otherwise build the
desired redirect route and converge it. -/
def reconcileRedirectHTTPRoute (cfg : GatewayConfig) (ing : Ingress)
    (rule : IngressRule) (lookup : GetResult HTTPRoute)
    (createFails updateFails : Bool) : RouteStepResult :=
  if ing.tls.isEmpty then ⟨.error .noTLS, [], []⟩
  else
    let desired := MakeRedirectHTTPRoute ing rule (redirectGatewayRef cfg)
    match desired.2 with
    | some e => ⟨.error e, [], []⟩
    | none => reconcileHTTPRoute lookup desired.1 createFails updateFails

/-! ### Converge for the access-grant kind (the grant phase of
`reconcileTLS`). -/

/-- `gatewayapi.ReferenceGrantSpec`: one from-entry (gateway side) and one
to-entry (secret side), flattened. -/
structure ReferenceGrantSpec where
  fromGroup : String
  fromKind : String
  fromNs : String
  toGroup : String
  toKind : String
  toName : String
deriving DecidableEq

/-- `gatewayapi.ReferenceGrant`: identity, spec, and the controller owner
reference as the owning UID (absent when the grant has no controller). -/
structure ReferenceGrant where
  name : String
  ns : String
  spec : ReferenceGrantSpec
  controllerUid : Option String
deriving DecidableEq

/-- `metav1.IsControlledBy(rp, ing)`: the grant's controller owner reference
points at the ingress (matched by UID). -/
def isControlledBy (rp : ReferenceGrant) (ing : Ingress) : Bool :=
  rp.controllerUid = some ing.uid

/-- Errors surfaced by `reconcileTLS`. -/
inductive TLSErr where
  | getFailed
  | createFailed
  | notOwned
  | updateFailed
deriving DecidableEq

/-- Result of `reconcileTLS`: the listeners (or error) and the grant create
and update calls issued against the store. -/
structure TLSResult where
  result : Except TLSErr (List Listener)
  creates : List ReferenceGrant
  updates : List ReferenceGrant
deriving DecidableEq

/-- The tail of `reconcileTLS` once a grant `rp` is in hand (found, or just
created with `creates` recording the create call): the ownership check runs
first and a grant not controlled by the ingress is a hard `notOwned` error
with no update attempted; only then is the spec compared semantically and an
update issued on difference; finally the listeners are built. -/
def reconcileTLSWithGrant (rp desired : ReferenceGrant)
    (creates : List ReferenceGrant) (updateFails : Bool)
    (tls : IngressTLS) (ing : Ingress) : TLSResult :=
  if !isControlledBy rp ing then ⟨.error .notOwned, creates, []⟩
  else if rp.spec ≠ desired.spec then
    let update := { rp with spec := desired.spec }
    if updateFails then ⟨.error .updateFailed, creates, [update]⟩
    else ⟨.ok (reconcileTLSListeners tls ing), creates, [update]⟩
  else ⟨.ok (reconcileTLSListeners tls ing), creates, []⟩

/-- `reconcileTLS`: converge the reference grant derived for the TLS block
(`desired`, the output of `resources.MakeReferenceGrant`), then build the
listeners.  Not-found creates the desired grant (which then flows into the
ownership check); a read error propagates. -/
def reconcileTLS (desired : ReferenceGrant) (lookup : GetResult ReferenceGrant)
    (createFails updateFails : Bool) (tls : IngressTLS) (ing : Ingress) :
    TLSResult :=
  match lookup with
  | .notFound =>
    if createFails then ⟨.error .createFailed, [desired], []⟩
    else reconcileTLSWithGrant desired desired [desired] updateFails tls ing
  | .errored => ⟨.error .getFailed, [], []⟩
  | .found rp => reconcileTLSWithGrant rp desired [] updateFails tls ing

/-! ### Lemmas about the listener map and the in-place scan. -/

/-- Every element of `lmapInsert m l` comes from `m` or is `l` itself. -/
theorem lmapInsert_mem {m : List Listener} {l x : Listener}
    (hx : x ∈ lmapInsert m l) : x ∈ m ∨ x = l := by
  unfold lmapInsert at hx
  split at hx
  · simp only [List.mem_map] at hx
    obtain ⟨y, hy, hxy⟩ := hx
    split at hxy
    · exact Or.inr hxy.symm
    · exact Or.inl (hxy ▸ hy)
  · rcases List.mem_append.mp hx with h | h
    · exact Or.inl h
    · exact Or.inr (List.mem_singleton.mp h)

/-- Every element of a fold of `lmapInsert` comes from the accumulator or the
inserted list. -/
theorem foldl_lmapInsert_mem :
    ∀ (ds acc : List Listener) (x : Listener),
      x ∈ ds.foldl lmapInsert acc → x ∈ acc ∨ x ∈ ds := by
  intro ds
  induction ds with
  | nil => intro acc x h; exact Or.inl h
  | cons d rest ih =>
    intro acc x h
    rcases ih (lmapInsert acc d) x h with h' | h'
    · rcases lmapInsert_mem h' with h'' | h''
      · exact Or.inl h''
      · exact Or.inr (h'' ▸ List.mem_cons_self d rest)
    · exact Or.inr (List.mem_cons_of_mem d h')

/-- The names of `buildLmap desired` all occur among the desired names. -/
theorem buildLmap_name_mem {desired : List Listener} {x : Listener}
    (hx : x ∈ buildLmap desired) : x.name ∈ desired.map Listener.name := by
  rcases foldl_lmapInsert_mem desired [] x hx with h | h
  · cases h
  · exact List.mem_map.mpr ⟨x, h, rfl⟩

/-- A successful `lmap` search returns an element of the map carrying the
searched name. -/
theorem lmapFind_mem {m : List Listener} {nm : String} {d : Listener}
    (h : lmapFind m nm = some d) : d ∈ m ∧ d.name = nm := by
  refine ⟨List.mem_of_find?_eq_some h, ?_⟩
  have := List.find?_some h
  simpa using this

/-- Erasing from an `lmap` keeps only elements of the map. -/
theorem lmapErase_subset {m : List Listener} {nm : String} {x : Listener}
    (hx : x ∈ lmapErase m nm) : x ∈ m :=
  (List.mem_filter.mp hx).1

/-- The in-place scan preserves the length of the existing sequence. -/
theorem scanListeners_length (ls : List Listener) :
    ∀ m : List Listener, (scanListeners ls m).1.length = ls.length := by
  induction ls with
  | nil => intro m; rfl
  | cons l rest ih =>
    intro m
    simp only [scanListeners]
    cases h : lmapFind m l.name with
    | none => simp [ih]
    | some d =>
      by_cases he : l = d
      · simp [he, ih]
      · simp [he, ih]

/-- The scan leaves an entry whose name lies outside `D` (a superset of the
map's names) exactly in place. -/
theorem scanListeners_foreign (D : List String) :
    ∀ (ls m : List Listener), (∀ x ∈ m, x.name ∈ D) →
      ∀ (i : Nat) (l : Listener), ls[i]? = some l → l.name ∉ D →
        (scanListeners ls m).1[i]? = some l := by
  intro ls
  induction ls with
  | nil => intro m _ i l h; simp at h
  | cons hd rest ih =>
    intro m hm i l hl hfor
    have herase : ∀ x ∈ lmapErase m hd.name, x.name ∈ D :=
      fun x hx => hm x (lmapErase_subset hx)
    cases i with
    | zero =>
      rw [List.getElem?_cons_zero] at hl
      injection hl with hl
      subst hl
      have hnone : lmapFind m hd.name = none := by
        cases h : lmapFind m hd.name with
        | none => rfl
        | some d =>
          exfalso
          have hd' := lmapFind_mem h
          exact hfor (hd'.2 ▸ hm d hd'.1)
      simp [scanListeners, hnone]
    | succ k =>
      rw [List.getElem?_cons_succ] at hl
      simp only [scanListeners]
      cases h : lmapFind m hd.name with
      | none => simpa using ih m hm k l hl hfor
      | some d =>
        by_cases he : hd = d
        · simpa [he] using ih (lmapErase m hd.name) herase k l hl hfor
        · simpa [he] using ih (lmapErase m hd.name) herase k l hl hfor

/-- C1.  For every call to listener Upsert (`reconcileGatewayListeners`) on an
existing shared gateway, every listener entry whose name is not among the
names of the desired owned entries is left exactly unchanged by the merge: it
is still present, with the same value, at the same index, for any mix of owned
and foreign entries in the sequence (ownership is name-based, not
index-based). -/
theorem upsert_foreign_entries_unchanged (gw : Gateway)
    (desired : List Listener) (i : Nat) (l : Listener)
    (hl : gw.listeners[i]? = some l)
    (hforeign : l.name ∉ desired.map Listener.name) :
    (upsertListeners gw.listeners desired).1[i]? = some l := by
  have hm : ∀ x ∈ buildLmap desired, x.name ∈ desired.map Listener.name :=
    fun x hx => buildLmap_name_mem hx
  have hscan := scanListeners_foreign (desired.map Listener.name)
    gw.listeners (buildLmap desired) hm i l hl hforeign
  have hi : i < (scanListeners gw.listeners (buildLmap desired)).1.length := by
    obtain ⟨h, -⟩ := List.getElem?_eq_some_iff.mp hscan
    exact h
  unfold upsertListeners
  rw [List.getElem?_append_left hi]
  exact hscan

/-- Witness for C1: a concrete gateway carrying one foreign entry at index 0
keeps it there, at the same index and value, across an Upsert of one owned
entry. -/
theorem upsert_foreign_entries_unchanged_witness :
    (upsertListeners
      [{ name := "http", hostname := "", port := 80, protocol := "HTTP",
         tlsMode := "", certRefGroup := "", certRefKind := "",
         certRefName := "", certRefNamespace := "", allowedRoutesFrom := "",
         allowedRoutesNamespace := "" }]
      (reconcileTLSListeners ⟨["a.example.com"], "tls-secret", "default"⟩
        ⟨"ing", "default", "uid1", [], [], []⟩)).1[0]? =
      some { name := "http", hostname := "", port := 80, protocol := "HTTP",
             tlsMode := "", certRefGroup := "", certRefKind := "",
             certRefName := "", certRefNamespace := "", allowedRoutesFrom := "",
             allowedRoutesNamespace := "" } :=
  upsert_foreign_entries_unchanged
    ⟨"istio-system", "gateway",
      [{ name := "http", hostname := "", port := 80, protocol := "HTTP",
         tlsMode := "", certRefGroup := "", certRefKind := "",
         certRefName := "", certRefNamespace := "", allowedRoutesFrom := "",
         allowedRoutesNamespace := "" }]⟩
    (reconcileTLSListeners ⟨["a.example.com"], "tls-secret", "default"⟩
      ⟨"ing", "default", "uid1", [], [], []⟩)
    0 _ (by decide) (by decide)

/-! ### Lemmas for the TLS-derived listener set.  All listeners derived by
`reconcileTLS` share the single name `listenerPrefix + UID`, so the name-keyed
`lmap` collapses them. -/

/-- Every listener derived by the `reconcileTLS` loop carries the derived
listener name. -/
theorem reconcileTLSListeners_name {tls : IngressTLS} {ing : Ingress}
    {x : Listener} (hx : x ∈ reconcileTLSListeners tls ing) :
    x.name = listenerName ing := by
  unfold reconcileTLSListeners at hx
  obtain ⟨h, -, rfl⟩ := List.mem_map.mp hx
  rfl

/-- A scan over a sequence none of whose names are in the map changes
nothing: the sequence and map are returned verbatim and the dirty flag stays
clear. -/
theorem scanListeners_all_foreign :
    ∀ (ls m : List Listener), (∀ l ∈ ls, lmapFind m l.name = none) →
      scanListeners ls m = (ls, m, false) := by
  intro ls
  induction ls with
  | nil => intro m _; rfl
  | cons l rest ih =>
    intro m h
    have h0 := h l (List.mem_cons_self l rest)
    simp [scanListeners, h0, ih m fun x hx => h x (List.mem_cons_of_mem l hx)]

/-- Folding `lmapInsert` over listeners that all share the name of the single
map entry keeps the map a singleton of that name. -/
theorem foldl_lmapInsert_same_name :
    ∀ (ds : List Listener) (a : Listener) (nm : String), a.name = nm →
      (∀ x ∈ ds, x.name = nm) →
      ∃ b : Listener, b.name = nm ∧ ds.foldl lmapInsert [a] = [b] := by
  intro ds
  induction ds with
  | nil => intro a nm ha _; exact ⟨a, ha, rfl⟩
  | cons d rest ih =>
    intro a nm ha hall
    have hd : d.name = nm := hall d (List.mem_cons_self d rest)
    have hins : lmapInsert [a] d = [d] := by
      simp [lmapInsert, ha, hd]
    rw [List.foldl_cons, hins]
    exact ih d nm hd fun x hx => hall x (List.mem_cons_of_mem d hx)

/-- The `lmap` of a same-named listener list has at most one entry. -/
theorem buildLmap_const_length (ds : List Listener) (nm : String)
    (h : ∀ x ∈ ds, x.name = nm) : (buildLmap ds).length = min ds.length 1 := by
  cases ds with
  | nil => rfl
  | cons d rest =>
    have hd : d.name = nm := h d (List.mem_cons_self d rest)
    have hstep : buildLmap (d :: rest) = rest.foldl lmapInsert [d] := by
      unfold buildLmap
      rw [List.foldl_cons]
      congr 1
    obtain ⟨b, -, hb⟩ := foldl_lmapInsert_same_name rest d nm hd
      fun x hx => h x (List.mem_cons_of_mem d hx)
    rw [hstep, hb]
    simp only [List.length_cons, List.length_nil]
    omega

/-- An Upsert whose desired names are disjoint from the existing sequence
leaves the scan phase inert: the result is the existing sequence with the
whole `lmap` appended. -/
theorem upsertListeners_all_foreign (existing desired : List Listener)
    (h : ∀ l ∈ existing, l.name ∉ desired.map Listener.name) :
    upsertListeners existing desired =
      (existing ++ buildLmap desired, !(buildLmap desired).isEmpty) := by
  have hforeign : ∀ l ∈ existing, lmapFind (buildLmap desired) l.name = none := by
    intro l hl
    unfold lmapFind
    rw [List.find?_eq_none]
    intro x hx
    simp only [decide_eq_true_eq]
    intro heq
    exact h l hl (heq ▸ buildLmap_name_mem hx)
  simp only [upsertListeners]
  rw [scanListeners_all_foreign existing (buildLmap desired) hforeign]
  simp

/-- C2 counterexample.  The claim asserts that Upsert with the `M` listeners
`reconcileTLS` derives from an intent with `M` TLS hosts on a gateway holding
`N` foreign entries yields `N + M` entries.  At the concrete input `N = 1`,
`M = 2` (two TLS hosts), the merged sequence has `2` entries, not `1 + 2`:
all derived listeners share the single name `listenerPrefix + UID`, so the
name-keyed `lmap` collapses them to one appended entry. -/
theorem upsert_tls_listener_count_cex :
    (reconcileTLSListeners
        ⟨["a.example.com", "b.example.com"], "tls-secret", "default"⟩
        ⟨"ing", "default", "uid1", [], [], []⟩).length = 2 ∧
    (upsertListeners
        [⟨"http", "", 80, "HTTP", "", "", "", "", "", "", ""⟩]
        (reconcileTLSListeners
          ⟨["a.example.com", "b.example.com"], "tls-secret", "default"⟩
          ⟨"ing", "default", "uid1", [], [], []⟩)).1.length = 2 ∧
    ¬ (upsertListeners
        [⟨"http", "", 80, "HTTP", "", "", "", "", "", "", ""⟩]
        (reconcileTLSListeners
          ⟨["a.example.com", "b.example.com"], "tls-secret", "default"⟩
          ⟨"ing", "default", "uid1", [], [], []⟩)).1.length = 1 + 2 := by
  decide

/-- C2 (amended).  Upsert on a shared gateway whose `N` listener entries are
all foreign (no name equals the derived listener name), with the listeners
derived by `reconcileTLS` from an intent with `M` TLS hosts, yields exactly
`N + min M 1` entries — the `M` derived listeners share one name, so at most
one is appended — and the `N` foreign entries are byte-identical, in place, as
the prefix of the result. -/
theorem upsert_tls_listener_count_amended (gw : Gateway) (ing : Ingress)
    (tls : IngressTLS)
    (hforeign : ∀ l ∈ gw.listeners, l.name ≠ listenerName ing) :
    (upsertListeners gw.listeners
        (reconcileTLSListeners tls ing)).1.take gw.listeners.length
      = gw.listeners ∧
    (upsertListeners gw.listeners (reconcileTLSListeners tls ing)).1.length
      = gw.listeners.length + min tls.hosts.length 1 := by
  have hnames : ∀ l ∈ gw.listeners,
      l.name ∉ (reconcileTLSListeners tls ing).map Listener.name := by
    intro l hl hmem
    obtain ⟨x, hx, hxl⟩ := List.mem_map.mp hmem
    exact hforeign l hl (hxl ▸ reconcileTLSListeners_name hx)
  rw [upsertListeners_all_foreign _ _ hnames]
  refine ⟨List.take_left _ _, ?_⟩
  rw [List.length_append,
    buildLmap_const_length _ (listenerName ing)
      fun x hx => reconcileTLSListeners_name hx]
  simp [reconcileTLSListeners]

/-- Witness for C2 (amended) at `N = 1`, `M = 2`. -/
theorem upsert_tls_listener_count_amended_witness :
    (upsertListeners
        [⟨"http", "", 80, "HTTP", "", "", "", "", "", "", ""⟩]
        (reconcileTLSListeners
          ⟨["a.example.com", "b.example.com"], "tls-secret", "default"⟩
          ⟨"ing", "default", "uid1", [], [], []⟩)).1.take 1
      = [⟨"http", "", 80, "HTTP", "", "", "", "", "", "", ""⟩] ∧
    (upsertListeners
        [⟨"http", "", 80, "HTTP", "", "", "", "", "", "", ""⟩]
        (reconcileTLSListeners
          ⟨["a.example.com", "b.example.com"], "tls-secret", "default"⟩
          ⟨"ing", "default", "uid1", [], [], []⟩)).1.length = 1 + min 2 1 :=
  upsert_tls_listener_count_amended
    ⟨"istio-system", "gateway", [⟨"http", "", 80, "HTTP", "", "", "", "", "", "", ""⟩]⟩
    ⟨"ing", "default", "uid1", [], [], []⟩
    ⟨["a.example.com", "b.example.com"], "tls-secret", "default"⟩
    (by decide)

/-! ### Replace-in-place behaviour of the scan. -/

/-- When the `lmap` is the single entry `d`, the scan replaces the first
entry named `d.name` in place — provided it differs from `d` — and leaves
everything else, including positions, untouched. -/
theorem scanListeners_single_replace :
    ∀ (ls : List Listener) (d : Listener) (i : Nat), i < ls.length →
      (ls.getD i default).name = d.name → ls.getD i default ≠ d →
      (∀ j, j < i → (ls.getD j default).name ≠ d.name) →
      scanListeners ls [d] = (ls.set i d, [], true) := by
  intro ls
  induction ls with
  | nil => intro d i hi; simp at hi
  | cons l rest ih =>
    intro d i hi hname hdiff hfirst
    cases i with
    | zero =>
      simp only [List.getD_cons_zero] at hname hdiff
      have hfind : lmapFind [d] l.name = some d := by
        simp [lmapFind, List.find?, hname]
      have herase : lmapErase [d] l.name = [] := by
        simp [lmapErase, hname]
      have hrest : scanListeners rest [] = (rest, [], false) :=
        scanListeners_all_foreign rest [] fun x _ => rfl
      simp [scanListeners, hfind, herase, hrest, hdiff]
    | succ k =>
      have hl : l.name ≠ d.name := by
        have := hfirst 0 (Nat.succ_pos k)
        simpa using this
      have hl' : d.name ≠ l.name := fun h => hl h.symm
      have hfind : lmapFind [d] l.name = none := by
        simp [lmapFind, List.find?, hl']
      have hi' : k < rest.length := by
        simpa using hi
      have hname' : (rest.getD k default).name = d.name := by
        simpa using hname
      have hdiff' : rest.getD k default ≠ d := by
        simpa using hdiff
      have hfirst' : ∀ j, j < k → (rest.getD j default).name ≠ d.name := by
        intro j hj
        have := hfirst (j + 1) (Nat.succ_lt_succ hj)
        simpa using this
      simp [scanListeners, hfind, ih d k hi' hname' hdiff' hfirst']

/-- C6.  When Upsert finds the owned listener entry (its name keyed in the
desired `lmap`, here the singleton `d`) already present at index `i` of the
gateway's sequence but semantically different from the desired entry, it
replaces exactly the entry at index `i` with the desired value — the result
is `set i d`: same position, same length, every other entry untouched — and
marks the resource dirty.  The index `i` is the first occurrence of the name
(the scan consumes the `lmap` entry at the first match). -/
theorem upsert_replace_in_place (gw : Gateway) (desired : List Listener)
    (d : Listener) (i : Nat)
    (hb : buildLmap desired = [d])
    (hi : i < gw.listeners.length)
    (hname : (gw.listeners.getD i default).name = d.name)
    (hdiff : gw.listeners.getD i default ≠ d)
    (hfirst : ∀ j, j < i → (gw.listeners.getD j default).name ≠ d.name) :
    upsertListeners gw.listeners desired = (gw.listeners.set i d, true) := by
  simp only [upsertListeners]
  rw [hb, scanListeners_single_replace gw.listeners d i hi hname hdiff hfirst]
  simp

/-- Witness for C6: a gateway holding a foreign entry and an outdated owned
entry at index 1; Upsert rewrites exactly index 1 to the new hostname. -/
theorem upsert_replace_in_place_witness :
    upsertListeners
      [⟨"http", "", 80, "HTTP", "", "", "", "", "", "", ""⟩,
       ⟨"kni-uid1", "old.example.com", 443, "HTTPS", "Terminate", "",
        "Secret", "tls-secret", "default", "Selector", "default"⟩]
      [⟨"kni-uid1", "new.example.com", 443, "HTTPS", "Terminate", "",
        "Secret", "tls-secret", "default", "Selector", "default"⟩] =
    ([⟨"http", "", 80, "HTTP", "", "", "", "", "", "", ""⟩,
      ⟨"kni-uid1", "old.example.com", 443, "HTTPS", "Terminate", "",
       "Secret", "tls-secret", "default", "Selector", "default"⟩].set 1
      ⟨"kni-uid1", "new.example.com", 443, "HTTPS", "Terminate", "",
       "Secret", "tls-secret", "default", "Selector", "default"⟩, true) :=
  upsert_replace_in_place
    ⟨"istio-system", "gateway",
     [⟨"http", "", 80, "HTTP", "", "", "", "", "", "", ""⟩,
      ⟨"kni-uid1", "old.example.com", 443, "HTTPS", "Terminate", "",
       "Secret", "tls-secret", "default", "Selector", "default"⟩]⟩
    [⟨"kni-uid1", "new.example.com", 443, "HTTPS", "Terminate", "",
      "Secret", "tls-secret", "default", "Selector", "default"⟩]
    ⟨"kni-uid1", "new.example.com", 443, "HTTPS", "Terminate", "",
     "Secret", "tls-secret", "default", "Selector", "default"⟩
    1 (by decide) (by decide) (by decide) (by decide)
    (by intro j hj; interval_cases j; decide)

/-! ### Converge idempotence for the HTTPRoute kind. -/

/-- Lookup-based map equality is reflexive. -/
theorem mapEqB_refl (m : List (String × String)) : mapEqB m m = true := by
  simp [mapEqB, List.all_eq_true]

/-- Routes agreeing on spec, annotations, and labels are semantically
equal. -/
theorem routeSemEq_of_fields {a b : HTTPRoute} (h1 : a.spec = b.spec)
    (h2 : a.annotations = b.annotations) (h3 : a.labels = b.labels) :
    routeSemEq a b = true := by
  simp [routeSemEq, h1, h2, h3, mapEqB_refl]

/-- C3.  For the routing-rule converge (`reconcileHTTPRoute`): a found
observed body semantically equal to the desired body is returned unchanged
with no create or update call; hence two converge passes with the same
desired body against a store that is only mutated by the converge itself
issue zero writes on the second pass. -/
theorem converge_route_idempotent :
    (∀ (observed desired : HTTPRoute) (cf uf : Bool),
        routeSemEq observed desired = true →
        reconcileHTTPRoute (.found observed) desired cf uf =
          ⟨.ok observed, [], []⟩) ∧
    (∀ (store : Option HTTPRoute) (desired : HTTPRoute),
        routeWrites (convergeRoute (convergeRoute store desired).2 desired).1 = 0) := by
  constructor
  · intro observed desired cf uf h
    simp [reconcileHTTPRoute, h]
  · intro store desired
    cases store with
    | none =>
      have h2 : (convergeRoute none desired).2 = some desired := by
        simp [convergeRoute, reconcileHTTPRoute, getOf]
      rw [h2]
      have hrefl : routeSemEq desired desired = true :=
        routeSemEq_of_fields rfl rfl rfl
      simp [convergeRoute, getOf, reconcileHTTPRoute, hrefl, routeWrites]
    | some r =>
      by_cases h : routeSemEq r desired = true
      · have h2 : (convergeRoute (some r) desired).2 = some r := by
          simp [convergeRoute, getOf, reconcileHTTPRoute, h]
        rw [h2]
        simp [convergeRoute, getOf, reconcileHTTPRoute, h, routeWrites]
      · have hb : routeSemEq r desired = false := by
          cases hx : routeSemEq r desired
          · rfl
          · exact absurd hx h
        have h2 : (convergeRoute (some r) desired).2 =
            some { r with spec := desired.spec,
                          annotations := desired.annotations,
                          labels := desired.labels } := by
          simp [convergeRoute, getOf, reconcileHTTPRoute, hb]
        rw [h2]
        have hov : routeSemEq
            { r with spec := desired.spec, annotations := desired.annotations,
                     labels := desired.labels } desired = true :=
          routeSemEq_of_fields rfl rfl rfl
        simp [convergeRoute, getOf, reconcileHTTPRoute, hov, routeWrites]

/-- Witness for C3 at a concrete route: the equal-body pass returns the
observed body with no writes, and the second of two passes writes nothing. -/
theorem converge_route_idempotent_witness :
    reconcileHTTPRoute
        (.found ⟨"a.example.com", "default", [], [], some "uid1", 7, ⟨[], [], []⟩⟩)
        ⟨"a.example.com", "default", [], [], some "uid1", 7, ⟨[], [], []⟩⟩
        false false =
      ⟨.ok ⟨"a.example.com", "default", [], [], some "uid1", 7, ⟨[], [], []⟩⟩, [], []⟩ ∧
    routeWrites
        (convergeRoute
          (convergeRoute none
            ⟨"a.example.com", "default", [], [], some "uid1", 7, ⟨[], [], []⟩⟩).2
          ⟨"a.example.com", "default", [], [], some "uid1", 7, ⟨[], [], []⟩⟩).1 = 0 :=
  ⟨converge_route_idempotent.1
      ⟨"a.example.com", "default", [], [], some "uid1", 7, ⟨[], [], []⟩⟩
      ⟨"a.example.com", "default", [], [], some "uid1", 7, ⟨[], [], []⟩⟩
      false false (by decide),
   converge_route_idempotent.2 none
      ⟨"a.example.com", "default", [], [], some "uid1", 7, ⟨[], [], []⟩⟩⟩

/-- C4.  In the AccessGrant converge (the grant phase of `reconcileTLS`):
when the ReferenceGrant with the derived name is found but `isControlledBy`
is false for the requesting ingress, converge fails with the ownership
conflict and issues no update (and no create) — for every found grant,
including grants whose spec differs from the desired spec, since the
ownership check runs before the semantic-equality check. -/
theorem reconcile_tls_ownership_conflict (desired rp : ReferenceGrant)
    (cf uf : Bool) (tls : IngressTLS) (ing : Ingress)
    (h : isControlledBy rp ing = false) :
    reconcileTLS desired (.found rp) cf uf tls ing =
      ⟨.error .notOwned, [], []⟩ := by
  simp [reconcileTLS, reconcileTLSWithGrant, h]

/-- Witness for C4: a found grant owned by a different UID — with a spec that
differs from the desired spec, so an update would follow were the equality
check reached — yields the ownership error and no writes. -/
theorem reconcile_tls_ownership_conflict_witness :
    reconcileTLS
      ⟨"grant", "istio-system",
        ⟨"gateway.networking.k8s.io", "Gateway", "istio-system", "", "Secret",
         "tls-secret"⟩, some "uid1"⟩
      (.found ⟨"grant", "istio-system",
        ⟨"gateway.networking.k8s.io", "Gateway", "istio-system", "", "Secret",
         "other-secret"⟩, some "other-uid"⟩)
      false false ⟨["a.example.com"], "tls-secret", "default"⟩
      ⟨"ing", "default", "uid1", [], [], []⟩ =
    ⟨.error .notOwned, [], []⟩ :=
  reconcile_tls_ownership_conflict _ _ false false _ _ (by decide)

/-! ### The redirect-route TLS precondition. -/

/-- Every error of `reconcileHTTPRoute` stems from the store: a failed read,
a failed create (not-found path), or a failed update. -/
theorem reconcileHTTPRoute_error_cases (lookup : GetResult HTTPRoute)
    (desired : HTTPRoute) (cf uf : Bool) (e : RouteErr)
    (h : (reconcileHTTPRoute lookup desired cf uf).result = .error e) :
    (e = .getFailed ∧ lookup = .errored) ∨
    (e = .createFailed ∧ cf = true ∧ lookup = .notFound) ∨
    (e = .updateFailed ∧ uf = true) := by
  cases lookup with
  | notFound =>
    cases cf
    · simp [reconcileHTTPRoute] at h
    · simp [reconcileHTTPRoute] at h
      exact Or.inr (Or.inl ⟨h.symm, rfl, rfl⟩)
  | errored =>
    simp [reconcileHTTPRoute] at h
    exact Or.inl ⟨h.symm, rfl⟩
  | found r =>
    by_cases hsem : routeSemEq r desired = true
    · simp [reconcileHTTPRoute, hsem] at h
    · have hb : routeSemEq r desired = false := by
        cases hx : routeSemEq r desired
        · rfl
        · exact absurd hx hsem
      cases uf
      · simp [reconcileHTTPRoute, hb] at h
      · simp [reconcileHTTPRoute, hb] at h
        exact Or.inr (Or.inr ⟨h.symm, rfl⟩)

/-- C5.  A redirect route requested for an intent whose TLS block is absent
(nil or empty) fails fast with the precondition error and issues no write;
conversely the precondition error arises only then, and for an intent with
TLS every failure of redirect-route reconciliation is a store failure. -/
theorem redirect_route_requires_tls (cfg : GatewayConfig) (ing : Ingress)
    (rule : IngressRule) (lookup : GetResult HTTPRoute) (cf uf : Bool) :
    (ing.tls = [] →
      reconcileRedirectHTTPRoute cfg ing rule lookup cf uf =
        ⟨.error .noTLS, [], []⟩) ∧
    ((reconcileRedirectHTTPRoute cfg ing rule lookup cf uf).result =
        .error .noTLS → ing.tls = []) ∧
    (∀ e, (reconcileRedirectHTTPRoute cfg ing rule lookup cf uf).result =
        .error e → ing.tls ≠ [] →
      (e = .getFailed ∧ lookup = .errored) ∨
      (e = .createFailed ∧ cf = true ∧ lookup = .notFound) ∨
      (e = .updateFailed ∧ uf = true)) := by
  by_cases htls : ing.tls = []
  · exact ⟨fun _ => by simp [reconcileRedirectHTTPRoute, htls],
      fun _ => htls, fun e _ h2 => absurd htls h2⟩
  · have hne : ing.tls.isEmpty = false := by
      simp [List.isEmpty_eq_false, htls]
    have hred : reconcileRedirectHTTPRoute cfg ing rule lookup cf uf =
        reconcileHTTPRoute lookup
          (MakeRedirectHTTPRoute ing rule (redirectGatewayRef cfg)).1 cf uf := by
      simp [reconcileRedirectHTTPRoute, hne, MakeRedirectHTTPRoute]
    refine ⟨fun h => absurd h htls, ?_, ?_⟩
    · rw [hred]
      intro h
      rcases reconcileHTTPRoute_error_cases lookup _ cf uf .noTLS h with
        ⟨he, -⟩ | ⟨he, -, -⟩ | ⟨he, -⟩
      all_goals exact RouteErr.noConfusion he
    · intro e h h2
      rw [hred] at h
      exact reconcileHTTPRoute_error_cases lookup _ cf uf e h

/-- Witness for C5: a concrete intent without TLS fails fast with the
precondition error and no writes. -/
theorem redirect_route_requires_tls_witness :
    reconcileRedirectHTTPRoute ⟨"istio-system", "gateway", "http"⟩
      ⟨"ing", "default", "uid1", [], [], []⟩
      ⟨["a.example.com"], .externalIP, ⟨[]⟩⟩ .notFound false false =
    ⟨.error .noTLS, [], []⟩ :=
  (redirect_route_requires_tls ⟨"istio-system", "gateway", "http"⟩
    ⟨"ing", "default", "uid1", [], [], []⟩
    ⟨["a.example.com"], .externalIP, ⟨[]⟩⟩ .notFound false false).1 rfl

/-- C10.  The builders `MakeHTTPRoute` and `MakeRedirectHTTPRoute` return a
nil error on every input — in particular `MakeRedirectHTTPRoute` does not
itself enforce the redirect-without-TLS precondition (that check lives solely
in the calling reconciler, `reconcileRedirectHTTPRoute`). -/
theorem builders_never_fail :
    ∀ (ing : Ingress) (rule : IngressRule) (gatewayRef : ParentReference),
      (MakeHTTPRoute ing rule gatewayRef).2 = none ∧
      (MakeRedirectHTTPRoute ing rule gatewayRef).2 = none :=
  fun _ _ _ => ⟨rfl, rfl⟩

/-! ### Determinism of the descending header sorts.

A list with pairwise-distinct keys has a unique permutation that is
descending by key, so the emitted header lists do not depend on the map
iteration order. -/

/-- Two permutations of one another with pairwise-distinct keys sort (by key,
descending) to the same list. -/
theorem mergeSort_key_desc_eq {α : Type} (key : α → String)
    (l1 l2 : List α) (hp : l1.Perm l2) (hnd : (l1.map key).Nodup) :
    l1.mergeSort (fun a b => decide (key b ≤ key a)) =
      l2.mergeSort (fun a b => decide (key b ≤ key a)) := by
  have trans : ∀ a b c : α, decide (key b ≤ key a) → decide (key c ≤ key b) →
      decide (key c ≤ key a) := by
    intro a b c h1 h2
    simp only [decide_eq_true_eq] at *
    exact le_trans h2 h1
  have total : ∀ a b : α, decide (key b ≤ key a) || decide (key a ≤ key b) := by
    intro a b
    simp only [Bool.or_eq_true, decide_eq_true_eq]
    exact le_total (key b) (key a)
  have p1 := List.mergeSort_perm l1 fun a b => decide (key b ≤ key a)
  have p2 := List.mergeSort_perm l2 fun a b => decide (key b ≤ key a)
  have hperm : (l1.mergeSort fun a b => decide (key b ≤ key a)).Perm
      (l2.mergeSort fun a b => decide (key b ≤ key a)) :=
    p1.trans (hp.trans p2.symm)
  have hnd1 : ((l1.mergeSort fun a b => decide (key b ≤ key a)).map key).Nodup :=
    ((p1.map key).nodup_iff).mpr hnd
  have hnd2 : ((l2.mergeSort fun a b => decide (key b ≤ key a)).map key).Nodup :=
    ((hperm.map key).nodup_iff).mp hnd1
  have strict : ∀ l : List α, ((l.mergeSort fun a b => decide (key b ≤ key a)).map key).Nodup →
      (l.mergeSort fun a b => decide (key b ≤ key a)).Pairwise
        fun a b => key b < key a := by
    intro l hnd'
    have hpw := List.sorted_mergeSort trans total l
    have hneq : (l.mergeSort fun a b => decide (key b ≤ key a)).Pairwise
        fun a b => key a ≠ key b := List.pairwise_map.mp hnd'
    refine (hpw.and hneq).imp ?_
    intro a b h
    have hle : key b ≤ key a := by
      have := h.1
      simpa using this
    exact lt_of_le_of_ne hle fun e => h.2 e.symm
  haveI : IsAntisymm α fun a b => key b < key a :=
    ⟨fun a b h1 h2 => absurd h1 (lt_asymm h2)⟩
  exact List.eq_of_perm_of_sorted hperm (strict l1 hnd1) (strict l2 hnd2)

/-- C7.  Building the route twice from the same intent is deterministic
against map iteration order: for any two enumeration orders of an
`AppendHeaders` map (pairwise-distinct keys) the emitted header-injection
list `sortHeaders (toHTTPHeaders ·)` used by `makeHTTPRouteRule` is the same,
and for any two enumeration orders of a path's header-match map the matches
emitted by `matchesFromRulePath` are the same — both lists are sorted by
header name, descending, before emission. -/
theorem header_sort_deterministic (e1 e2 : List (String × String))
    (p1 p2 : HTTPIngressPath)
    (hperm : e1.Perm e2) (hnd : (e1.map Prod.fst).Nodup)
    (hpath : p1.path = p2.path) (hhperm : p1.headers.Perm p2.headers)
    (hhnd : (p1.headers.map Prod.fst).Nodup) :
    sortHeaders (toHTTPHeaders e1) = sortHeaders (toHTTPHeaders e2) ∧
    matchesFromRulePath p1 = matchesFromRulePath p2 := by
  constructor
  · apply mergeSort_key_desc_eq HTTPHeader.name
    · exact hperm.map _
    · simpa [toHTTPHeaders, Function.comp] using hnd
  · have hm : sortHeaderMatches
        (p1.headers.map fun kv =>
          { type := "Exact", name := kv.1, value := kv.2.exact }) =
      sortHeaderMatches
        (p2.headers.map fun kv =>
          { type := "Exact", name := kv.1, value := kv.2.exact }) := by
      apply mergeSort_key_desc_eq HTTPHeaderMatch.name
      · exact hhperm.map _
      · simpa [Function.comp] using hhnd
    simp only [matchesFromRulePath, hpath, hm]

/-- Witness for C7: two reversed enumerations of a two-key header map and of
a two-key header-match map produce identical sorted emissions. -/
theorem header_sort_deterministic_witness :
    sortHeaders (toHTTPHeaders [("K-A", "1"), ("K-B", "2")]) =
      sortHeaders (toHTTPHeaders [("K-B", "2"), ("K-A", "1")]) ∧
    matchesFromRulePath
        ⟨"/", [("K-A", ⟨"x"⟩), ("K-B", ⟨"y"⟩)], none, []⟩ =
      matchesFromRulePath
        ⟨"/", [("K-B", ⟨"y"⟩), ("K-A", ⟨"x"⟩)], none, []⟩ :=
  header_sort_deterministic [("K-A", "1"), ("K-B", "2")]
    [("K-B", "2"), ("K-A", "1")]
    ⟨"/", [("K-A", ⟨"x"⟩), ("K-B", ⟨"y"⟩)], none, []⟩
    ⟨"/", [("K-B", ⟨"y"⟩), ("K-A", ⟨"x"⟩)], none, []⟩
    (by decide) (by decide) rfl (by decide) (by decide)

/-! ### Lemmas about the backward swap-remove of `clearGatewayListeners`. -/

/-- Swap-remove shortens the sequence by one. -/
theorem removeSwapAt_length {ls : List Listener} {i : Nat} :
    (removeSwapAt ls i).length = ls.length - 1 := by
  simp [removeSwapAt]

/-- Element view of a swap-remove at a valid index: position `i` now holds
the old last element; every other surviving position is unchanged. -/
theorem removeSwapAt_getElem? {ls : List Listener} {i j : Nat}
    (hi : i < ls.length) (hj : j < ls.length - 1) :
    (removeSwapAt ls i)[j]? =
      if j = i then ls[ls.length - 1]? else ls[j]? := by
  have hL : ls.length - 1 < ls.length := by omega
  unfold removeSwapAt
  rw [List.getElem?_dropLast]
  simp only [List.length_set]
  rw [if_pos hj, List.getElem?_set]
  by_cases h : i = j
  · subst h
    rw [if_pos rfl, if_pos hi, if_pos rfl]
    rw [List.getD_eq_getElem?_getD, List.getElem?_eq_getElem hL]
    simp
  · rw [if_neg h, if_neg fun hh => h hh.symm]

/-- Swap-remove at a valid index is, as a multiset, removal of the entry at
that index. -/
theorem removeSwapAt_perm {ls : List Listener} {i : Nat} (hi : i < ls.length) :
    (removeSwapAt ls i).Perm (ls.eraseIdx i) := by
  rcases Nat.lt_or_ge i (ls.length - 1) with hlt | hge
  · have hset : ls.set i (ls.getD (ls.length - 1) default) =
        ls.take i ++ ls.getD (ls.length - 1) default :: ls.drop (i + 1) := by
      rw [List.set_eq_take_append_cons_drop, if_pos hi]
    have hDlen : (ls.drop (i + 1)).length = ls.length - (i + 1) :=
      List.length_drop _ _
    have hDne : ls.drop (i + 1) ≠ [] := by
      intro h
      rw [h] at hDlen
      simp at hDlen
      omega
    have hz : (ls.drop (i + 1)).getLast hDne = ls.getD (ls.length - 1) default := by
      have h1 := List.getLast?_eq_getLast (ls.drop (i + 1)) hDne
      rw [List.getLast?_eq_getElem?, List.getElem?_drop, hDlen] at h1
      have harith : i + 1 + (ls.length - (i + 1) - 1) = ls.length - 1 := by omega
      rw [harith, List.getElem?_eq_getElem (show ls.length - 1 < ls.length by omega)]
        at h1
      injection h1 with h1
      rw [List.getD_eq_getElem?_getD,
        List.getElem?_eq_getElem (show ls.length - 1 < ls.length by omega)]
      rw [← h1]
      rfl
    have hD : (ls.drop (i + 1)).dropLast ++ [ls.getD (ls.length - 1) default] =
        ls.drop (i + 1) := by
      rw [← hz]
      exact List.dropLast_concat_getLast hDne
    have hrs : removeSwapAt ls i =
        ls.take i ++
          ls.getD (ls.length - 1) default :: (ls.drop (i + 1)).dropLast := by
      unfold removeSwapAt
      rw [hset, List.dropLast_append_cons, List.dropLast_cons_of_ne_nil hDne]
    rw [hrs, List.eraseIdx_eq_take_drop_succ]
    apply List.Perm.append_left
    conv_rhs => rw [← hD]
    exact (List.perm_append_singleton _ _).symm
  · have hL : i + 1 = ls.length := by omega
    have hset : ls.set i (ls.getD (ls.length - 1) default) =
        ls.take i ++ [ls.getD (ls.length - 1) default] := by
      rw [List.set_eq_take_append_cons_drop, if_pos hi, hL, List.drop_length]
    have hrs : removeSwapAt ls i = ls.take i := by
      unfold removeSwapAt
      rw [hset, List.dropLast_concat]
    have her : ls.eraseIdx i = ls.take i := by
      rw [List.eraseIdx_eq_take_drop_succ, hL, List.drop_length, List.append_nil]
    rw [hrs, her]

/-- The backward scan, entered at counter `i` on a sequence whose positions
at and beyond `i` are already clean, removes (as a multiset) exactly the
matching entries. -/
theorem clearLoop_perm_filter (nm : String) :
    ∀ (i : Nat) (ls : List Listener), i ≤ ls.length →
      (∀ (j : Nat) (hj : j < ls.length), i ≤ j → (ls[j]).name ≠ nm) →
      (clearLoop nm i ls).Perm
        (ls.filter fun l => !decide (l.name = nm)) := by
  intro i
  induction i with
  | zero =>
    intro ls _ hclean
    have hfe : ls.filter (fun l => !decide (l.name = nm)) = ls := by
      rw [List.filter_eq_self]
      intro a ha
      obtain ⟨j, hj, rfl⟩ := List.mem_iff_getElem.mp ha
      simp [hclean j hj (Nat.zero_le j)]
    rw [clearLoop, hfe]
  | succ k ih =>
    intro ls hle hclean
    have hk : k < ls.length := by omega
    have hgd : ls.getD k default = ls[k] := by
      rw [List.getD_eq_getElem?_getD, List.getElem?_eq_getElem hk]
      rfl
    by_cases hx : (ls.getD k default).name = nm
    · have hxk : (ls[k]).name = nm := hgd ▸ hx
      simp only [clearLoop, if_pos hx]
      have hclean' : ∀ (j : Nat) (hj : j < (removeSwapAt ls k).length), k ≤ j →
          ((removeSwapAt ls k)[j]).name ≠ nm := by
        intro j hj hkj
        have hj' : j < ls.length - 1 := by
          have := @removeSwapAt_length ls k
          omega
        have hq := removeSwapAt_getElem? hk hj'
        have hsome : (removeSwapAt ls k)[j]? = some ((removeSwapAt ls k)[j]) :=
          List.getElem?_eq_getElem hj
        by_cases hjk : j = k
        · have hlastlt : ls.length - 1 < ls.length := by omega
          rw [hq, if_pos hjk, List.getElem?_eq_getElem hlastlt] at hsome
          injection hsome with hsome
          rw [← hsome]
          exact hclean (ls.length - 1) hlastlt (by omega)
        · rw [hq, if_neg hjk,
            List.getElem?_eq_getElem (show j < ls.length by omega)] at hsome
          injection hsome with hsome
          rw [← hsome]
          exact hclean j (by omega) (by omega)
      have hperm1 := ih (removeSwapAt ls k)
        (by rw [removeSwapAt_length]; omega) hclean'
      have hdecomp : ls.filter (fun l => !decide (l.name = nm)) =
          (ls.eraseIdx k).filter (fun l => !decide (l.name = nm)) := by
        rw [List.eraseIdx_eq_take_drop_succ]
        conv_lhs => rw [← List.take_append_drop k ls]
        rw [List.filter_append, List.filter_append]
        congr 1
        rw [List.drop_eq_getElem_cons hk, List.filter_cons]
        simp [hxk]
      have hpf : ((removeSwapAt ls k).filter fun l => !decide (l.name = nm)).Perm
          (ls.filter fun l => !decide (l.name = nm)) := by
        have hp := (removeSwapAt_perm hk).filter fun l => !decide (l.name = nm)
        rw [hdecomp]
        exact hp
      exact hperm1.trans hpf
    · simp only [clearLoop, if_neg hx]
      apply ih ls (by omega)
      intro j hj hkj
      rcases Nat.eq_or_lt_of_le hkj with heq | hlt
      · subst heq
        rw [hgd] at hx
        exact hx
      · exact hclean j hj hlt

/-- `clearListenersList` removes, as a multiset, exactly the entries carrying
the searched name. -/
theorem clearListenersList_perm_filter (nm : String) (ls : List Listener) :
    (clearListenersList nm ls).Perm
      (ls.filter fun l => !decide (l.name = nm)) := by
  apply clearLoop_perm_filter nm ls.length ls (Nat.le_refl _)
  intro j hj hle
  exact absurd hle (by omega)

/-- C8.  After Clear (`clearGatewayListeners`) on an existing shared gateway,
no entry named `listenerPrefix + UID` remains, and the remaining sequence is
exactly the non-matching entries as a multiset (a permutation of the filtered
sequence; order may change due to swap-remove during the backward scan). -/
theorem clear_removes_owned_listeners (ing : Ingress) (gw : Gateway) :
    (clearListenersList (listenerName ing) gw.listeners).Perm
      (gw.listeners.filter fun l => !decide (l.name = listenerName ing)) ∧
    ∀ l ∈ clearListenersList (listenerName ing) gw.listeners,
      l.name ≠ listenerName ing := by
  refine ⟨clearListenersList_perm_filter _ _, ?_⟩
  intro l hl
  have hmem :=
    (clearListenersList_perm_filter (listenerName ing) gw.listeners).mem_iff.mp hl
  have hp := List.of_mem_filter hmem
  simpa using hp

/-- Witness for C8: on a concrete gateway holding one owned and one foreign
entry, the surviving foreign entry does not carry the derived name. -/
theorem clear_removes_owned_listeners_witness :
    (⟨"http", "", 80, "HTTP", "", "", "", "", "", "", ""⟩ : Listener).name ≠
      listenerName ⟨"ing", "default", "uid1", [], [], []⟩ :=
  (clear_removes_owned_listeners ⟨"ing", "default", "uid1", [], [], []⟩
      ⟨"istio-system", "gateway",
        [⟨"kni-uid1", "a.example.com", 443, "HTTPS", "Terminate", "", "Secret",
          "tls-secret", "default", "Selector", "default"⟩,
         ⟨"http", "", 80, "HTTP", "", "", "", "", "", "", ""⟩]⟩).2
    ⟨"http", "", 80, "HTTP", "", "", "", "", "", "", ""⟩ (by decide)

/-- A backward scan over a sequence with no matching entry is the
identity. -/
theorem clearLoop_id (nm : String) :
    ∀ (i : Nat) (ls : List Listener), i ≤ ls.length →
      (∀ l ∈ ls, l.name ≠ nm) → clearLoop nm i ls = ls := by
  intro i
  induction i with
  | zero => intro ls _ _; rfl
  | succ k ih =>
    intro ls hle h
    have hk : k < ls.length := by omega
    have hmem : ls.getD k default ∈ ls := by
      rw [List.getD_eq_getElem?_getD, List.getElem?_eq_getElem hk]
      exact List.getElem_mem hk
    simp only [clearLoop, if_neg (h _ hmem)]
    exact ih ls (by omega) h

/-- C9.  Clear on a shared gateway whose listener sequence contains no entry
matching the derived listener name leaves the sequence unchanged — the very
same list — and issues no write and no error. -/
theorem clear_noop_without_matches (gw : Gateway) (ing : Ingress) (uf : Bool)
    (h : ∀ l ∈ gw.listeners, l.name ≠ listenerName ing) :
    clearListenersList (listenerName ing) gw.listeners = gw.listeners ∧
    clearGatewayListeners (.found gw) ing uf = ⟨none, []⟩ := by
  have hid : clearListenersList (listenerName ing) gw.listeners = gw.listeners :=
    clearLoop_id _ _ _ (Nat.le_refl _) h
  refine ⟨hid, ?_⟩
  simp [clearGatewayListeners, clearListenersList] at hid ⊢
  simp [hid]

/-- Witness for C9: a gateway with two foreign entries is untouched and not
written. -/
theorem clear_noop_without_matches_witness :
    clearListenersList (listenerName ⟨"ing", "default", "uid1", [], [], []⟩)
        [⟨"http", "", 80, "HTTP", "", "", "", "", "", "", ""⟩,
         ⟨"kni-other", "b.example.com", 443, "HTTPS", "Terminate", "", "Secret",
          "s", "default", "Selector", "default"⟩] =
      [⟨"http", "", 80, "HTTP", "", "", "", "", "", "", ""⟩,
       ⟨"kni-other", "b.example.com", 443, "HTTPS", "Terminate", "", "Secret",
        "s", "default", "Selector", "default"⟩] ∧
    clearGatewayListeners
      (.found ⟨"istio-system", "gateway",
        [⟨"http", "", 80, "HTTP", "", "", "", "", "", "", ""⟩,
         ⟨"kni-other", "b.example.com", 443, "HTTPS", "Terminate", "", "Secret",
          "s", "default", "Selector", "default"⟩]⟩)
      ⟨"ing", "default", "uid1", [], [], []⟩ false = ⟨none, []⟩ :=
  clear_noop_without_matches
    ⟨"istio-system", "gateway",
      [⟨"http", "", 80, "HTTP", "", "", "", "", "", "", ""⟩,
       ⟨"kni-other", "b.example.com", 443, "HTTPS", "Terminate", "", "Secret",
        "s", "default", "Selector", "default"⟩]⟩
    ⟨"ing", "default", "uid1", [], [], []⟩ false (by decide)
